import Mathlib

/-!
Shallow embedding of `src/ftp_sync.py` (dllmr/ftp_sync).

The script recursively mirrors a remote FTP directory tree into local
storage (`process_directory`, lines 15-101) and a `main` driver
(lines 103-175) that connects, runs the walk, and exits 0/1.

Modelling choices:
* The remote server is a finite map from canonical paths (lists of
  path components) to raw listing lines (for directories) and sizes
  (for files).  `ftp.cwd` on an absolute path succeeds exactly when
  the path is a known directory; a cwd to the parent pops the last
  component of the cursor (FTP server semantics).
* Python exceptions are modelled by `Option`: an operation result of
  `none` means an exception escaped; state changes made before the
  raise persist (the state is threaded alongside).
* Python string operations (`split()`, `lstrip`, `replace`,
  `startswith`, `endswith`) are rendered as character-list functions
  with the same semantics.
* Unbounded recursion is rendered with a fuel parameter; fuel
  exhaustion is mapped to `none` and is unreachable for fuel larger
  than the tree depth.
* `ftp.quit()` and log-file/console writes are external collaborators
  (spec section 1) and are not modelled; log events are recorded as an
  abstract `Event` trace.
-/

namespace FtpSync

/-- Generic splitter: split a character list at characters satisfying
`p`, discarding empty pieces — the common semantics of Python's
`str.split()` (with `p` = whitespace) and of splitting a path at
separators.  `acc` holds the current piece, reversed. -/
def splitRuns (p : Char → Bool) : List Char → List Char → List (List Char)
  | [], acc => if acc.isEmpty then [] else [acc.reverse]
  | c :: cs, acc =>
    if p c then
      if acc.isEmpty then splitRuns p cs [] else acc.reverse :: splitRuns p cs []
    else
      splitRuns p cs (c :: acc)

/-- Python `item.split()` (ftp_sync.py line 36): split on runs of
whitespace, no empty tokens. -/
def pySplit (s : String) : List String :=
  (splitRuns Char.isWhitespace s.toList []).map List.asString

/-- Canonical path components of a remote path: split at `'/'`,
discarding empty components (so `/a/b`, `/a/b/` and `//a/b` all
denote components `[a, b]`), as an FTP server resolves paths. -/
def pathComps (s : String) : List String :=
  (splitRuns (fun c => c = '/') s.toList []).map List.asString

/-- Python startswith for a single leading character `c`. -/
def startsWithChar (s : String) (c : Char) : Bool :=
  s.toList.head? == some c

/-- Python `s.endswith('/')` (ftp_sync.py line 47). -/
def endsWithSlash (s : String) : Bool :=
  s.toList.getLast? == some '/'

/-- Python `s.lstrip('/')`: remove ALL leading `'/'` characters
(ftp_sync.py line 69). -/
def pyLstripSlash (s : String) : String :=
  (s.toList.dropWhile (fun c => c = '/')).asString

/-- Python `s.replace('/', '_')` for the single-character pattern
(ftp_sync.py line 69). -/
def pyReplaceSlash (s : String) : String :=
  (s.toList.map (fun c => if c = '/' then '_' else c)).asString

/-- Line 69 of ftp_sync.py, the flatten-mode file-name sanitizer:
Python lstrip of separators followed by replacing separators with
underscores. -/
def safeRemotePath (remote_path : String) : String :=
  pyReplaceSlash (pyLstripSlash remote_path)

/-- Modelled from the spec: the spec's `sanitize` function is said to
strip a SINGLE leading separator and replace every remaining path
separator with an underscore (spec section 4.2 step 6).  This
definition follows the spec's words; it is compared against the
source's `safeRemotePath`. -/
def sanitizeSpec (s : String) : String :=
  if s.toList.head? = some '/' then
    (s.toList.tail.map (fun c => if c = '/' then '_' else c)).asString
  else
    (s.toList.map (fun c => if c = '/' then '_' else c)).asString

/-- A parsed listing entry (spec's `RemoteEntry`). -/
structure RemoteEntry where
  name : String
  isDirectory : Bool
deriving DecidableEq, Repr

/-- The Listing Parser (ftp_sync.py lines 36-53): tokenize the raw
line; skip it if fewer than 9 tokens; the name is tokens 8.. joined
with single spaces; skip `.` and `..`; the entry is a directory iff
the raw line starts with `'d'`.  A total function: never raises. -/
def parseLine (item : String) : Option RemoteEntry :=
  let tokens := pySplit item
  if tokens.length < 9 then none
  else
    let file_name := String.intercalate " " (tokens.drop 8)
    if file_name = "." ∨ file_name = ".." then none
    else some { name := file_name, isDirectory := startsWithChar item 'd' }

/-- Absolute remote path of an entry (ftp_sync.py lines 47-50):
join with exactly one separator unless `remote_dir` already ends in
one. -/
def joinRemote (remote_dir file_name : String) : String :=
  if endsWithSlash remote_dir then remote_dir ++ file_name
  else remote_dir ++ "/" ++ file_name

/-- Python `os.path.join` restricted to the shapes used here. -/
def osJoin (a b : String) : String :=
  if startsWithChar b '/' then b
  else if a = "" then b
  else if endsWithSlash a then a ++ b
  else a ++ "/" ++ b

/-- One log/console event of the walk (spec's `TransferLogEntry`
outcome, ftp_sync.py lines 84-95). -/
inductive Event where
  | downloaded (remotePath localPath : String)
  | downloadedAndDeleted (remotePath localPath : String)
  | downloadFailed (remotePath : String)
  | errorEvent (remotePath : String)
deriving DecidableEq, Repr

/-- The remote server environment: directories (canonical path
components to raw listing lines), the initial files (path to byte
size delivered by `RETR`), the sets of paths where `RETR` or `DELE`
raise, and whether the initial connect/login raises. -/
structure Server where
  dirs : List (List String × List String)
  files : List (List String × Nat)
  retrFail : List (List String)
  deleteFail : List (List String)
  connectFail : Bool
deriving DecidableEq, Repr

/-- The mutable world state threaded through the walk: the FTP
connection's current-directory cursor, the surviving remote files
(deletions remove entries), the local filesystem (path to size;
newest binding first), created local directories, the remote paths
on which `DELE` was issued, and the event trace. -/
structure St where
  cursor : List String
  remoteFiles : List (List String × Nat)
  localFiles : List (String × Nat)
  localDirs : List String
  deleteAttempts : List (List String)
  events : List Event
deriving DecidableEq, Repr

/-- Model of cwd on an absolute path (ftp_sync.py line 23):
succeeds (repositioning the cursor) iff the path is a known remote
directory; otherwise raises (`none`). -/
def ftpCwd (srv : Server) (path : String) (st : St) : Option St :=
  match srv.dirs.lookup (pathComps path) with
  | some _ => some { st with cursor := pathComps path }
  | none => none

/-- Model of ensure_local_dir (ftp_sync.py lines 10-13): idempotent create. -/
def ensureLocalDir (local_path : String) (st : St) : St :=
  if st.localDirs.contains local_path then st
  else { st with localDirs := local_path :: st.localDirs }

/-- The body of the try block for one file (ftp_sync.py lines 75-96):
open `local_path` for binary write (creating/truncating it to size 0),
run `RETR file_name` resolved against the cursor, verify that the
local artifact exists with nonzero size, and on verified success
optionally delete the remote file.  Result `some ok` is the Python
control flow after the try/except (exceptions inside are caught:
`Error` event, `ok = false`). -/
def downloadFile (srv : Server) (file_name remote_path local_path : String)
    (delete_remote : Bool) (st : St) : St × Option Bool :=
  let st1 : St := { st with localFiles := (local_path, 0) :: st.localFiles }
  let target := st1.cursor ++ pathComps file_name
  if srv.retrFail.contains target then
    ({ st1 with events := st1.events ++ [Event.errorEvent remote_path] }, some false)
  else
    match st1.remoteFiles.lookup target with
    | none => ({ st1 with events := st1.events ++ [Event.errorEvent remote_path] }, some false)
    | some size =>
      let st2 : St := { st1 with localFiles := (local_path, size) :: st1.localFiles }
      let verified : Bool :=
        match st2.localFiles.lookup local_path with
        | some n => decide (0 < n)
        | none => false
      if verified then
        if delete_remote then
          let st3 : St := { st2 with deleteAttempts := st2.deleteAttempts ++ [target] }
          if srv.deleteFail.contains target then
            ({ st3 with events := st3.events ++ [Event.errorEvent remote_path] }, some false)
          else
            ({ st3 with
                remoteFiles := st3.remoteFiles.filter (fun e => e.1 != target),
                events := st3.events ++ [Event.downloadedAndDeleted remote_path local_path] },
              some true)
        else
          ({ st2 with events := st2.events ++ [Event.downloaded remote_path local_path] },
            some true)
      else
        ({ st2 with events := st2.events ++ [Event.downloadFailed remote_path] }, some false)

/-- One iteration of the item loop (ftp_sync.py lines 34-96),
parameterized by the recursive call `rec` used for subdirectories.
`some ok` is this item's contribution to the frame's success flag
(`true` for skipped lines); `none` means an exception escaped the
loop body (only possible from the uncaught recursive call). -/
def processEntry (srv : Server) (rec : String → String → St → St × Option Bool)
    (remote_dir local_dir : String) (delete_remote flatten : Bool)
    (item : String) (st : St) : St × Option Bool :=
  match parseLine item with
  | none => (st, some true)
  | some entry =>
    let remote_path := joinRemote remote_dir entry.name
    if entry.isDirectory then
      if flatten then rec remote_path local_dir st
      else rec remote_path (osJoin local_dir entry.name) st
    else
      let local_path :=
        if flatten then osJoin local_dir (safeRemotePath remote_path)
        else osJoin local_dir entry.name
      downloadFile srv entry.name remote_path local_path delete_remote st

/-- The item loop (ftp_sync.py lines 34-96): `success` starts `true`
and each item's `false` is ANDed in, without stopping the iteration;
an escaped exception (`none`) aborts the loop and propagates. -/
def processList (srv : Server) (rec : String → String → St → St × Option Bool)
    (remote_dir local_dir : String) (delete_remote flatten : Bool) :
    List String → St → St × Option Bool
  | [], st => (st, some true)
  | item :: rest, st =>
    match processEntry srv rec remote_dir local_dir delete_remote flatten item st with
    | (st1, none) => (st1, none)
    | (st1, some ok) =>
      match processList srv rec remote_dir local_dir delete_remote flatten rest st1 with
      | (st2, none) => (st2, none)
      | (st2, some oks) => (st2, some (ok && oks))

/-- Model of process_directory (ftp_sync.py lines 15-101): cwd into
`remote_dir` (uncaught on failure), ensure the local directory unless
flattening, list the directory, process each item, then
`ftp.cwd('..')` and return the aggregated success flag.  Fuel bounds
the recursion depth; fuel exhaustion returns `none`. -/
def processDirectory (srv : Server) (delete_remote flatten : Bool) :
    Nat → String → String → St → St × Option Bool
  | 0, _, _, st => (st, none)
  | fuel + 1, remote_dir, local_dir, st =>
    match ftpCwd srv remote_dir st with
    | none => (st, none)
    | some st1 =>
      let st2 := if flatten then st1 else ensureLocalDir local_dir st1
      let file_list := ((srv.dirs.lookup st2.cursor).getD [])
      match processList srv (fun rp ld s => processDirectory srv delete_remote flatten fuel rp ld s)
          remote_dir local_dir delete_remote flatten file_list st2 with
      | (st3, none) => (st3, none)
      | (st3, some success) =>
        ({ st3 with cursor := st3.cursor.dropLast }, some success)

/-- Command-line arguments relevant to the walk (ftp_sync.py
lines 104-114). -/
structure Args where
  remote_dir : String
  local_dir : String
  delete_remote : Bool
  flatten : Bool
deriving DecidableEq, Repr

/-- Coercion of the remote dir to an absolute path (ftp_sync.py
lines 117-118). -/
def normRemoteDir (rd : String) : String :=
  if startsWithChar rd '/' then rd else "/" ++ rd

/-- Initial world state: connection cursor at the root, remote files
as on the server, a given pre-existing local filesystem. -/
def initSt (srv : Server) (localFiles0 : List (String × Nat)) : St :=
  { cursor := [], remoteFiles := srv.files, localFiles := localFiles0,
    localDirs := [], deleteAttempts := [], events := [] }

/-- State after `main`'s `ensure_local_dir(args.local_dir)`
(ftp_sync.py line 121), before connecting. -/
def mainInit (srv : Server) (a : Args) (localFiles0 : List (String × Nat)) : St :=
  ensureLocalDir a.local_dir (initSt srv localFiles0)

/-- Model of main (ftp_sync.py lines 103-175): normalize the remote dir,
ensure the local dir, connect (a connect/login failure is caught by
the top-level handler), run the walk — any exception escaping it is
caught by the same top-level handler — and exit 0 exactly when
`overall_success` survived as `True`. -/
def mainRun (srv : Server) (a : Args) (fuel : Nat)
    (localFiles0 : List (String × Nat)) : Nat × St :=
  let st0 := mainInit srv a localFiles0
  if srv.connectFail then (1, st0)
  else
    match processDirectory srv a.delete_remote a.flatten fuel
        (normRemoteDir a.remote_dir) a.local_dir st0 with
    | (st, some true) => (0, st)
    | (st, some false) => (1, st)
    | (st, none) => (1, st)

/-- Failure outcomes of the event trace: `DownloadFailed` and `Error`. -/
def isFailureEvent : Event → Bool
  | Event.downloadFailed _ => true
  | Event.errorEvent _ => true
  | _ => false

/-- A trace is clean when it records no failure outcome. -/
def cleanEvents (l : List Event) : Bool :=
  l.all (fun e => !isFailureEvent e)

/-- A directory-entry name an FTP server can actually produce:
nonempty and free of path separators. -/
def goodNameB (n : String) : Bool :=
  (!(n == "")) && n.toList.all (fun c => !(c == '/'))

/-- All entries parsed from a listing line have server-producible names. -/
def goodLineB (line : String) : Bool :=
  match parseLine line with
  | some e => goodNameB e.name
  | none => true

/-- Well-formed server: every listing line of every directory parses
to a server-producible name (real FTP listings never contain `/` in
an entry name). -/
def serverWFB (srv : Server) : Bool :=
  srv.dirs.all (fun d => d.2.all goodLineB)

/-! ### Lemmas about the splitter and path components -/

theorem asString_toList (s : String) : s.toList.asString = s := rfl

theorem asString_data (s : String) : s.data.asString = s := rfl

theorem toList_asString (l : List Char) : (List.asString l).toList = l := rfl

theorem data_asString (l : List Char) : (List.asString l).data = l := rfl

theorem toList_append (a b : String) : (a ++ b).toList = a.toList ++ b.toList :=
  String.data_append a b

theorem splitRuns_append_sep (p : Char → Bool) (c : Char) (hc : p c = true) :
    ∀ (l1 l2 acc : List Char),
      splitRuns p (l1 ++ c :: l2) acc = splitRuns p l1 acc ++ splitRuns p l2 [] := by
  intro l1
  induction l1 with
  | nil =>
    intro l2 acc
    by_cases h : acc.isEmpty <;> simp [splitRuns, hc, h]
  | cons d t ih =>
    intro l2 acc
    by_cases hd : p d
    · by_cases h : acc.isEmpty <;> simp [splitRuns, hd, h, ih]
    · simp [splitRuns, hd, ih]

theorem splitRuns_no_sep (p : Char → Bool) :
    ∀ (l acc : List Char), (∀ x ∈ l, p x = false) →
      splitRuns p l acc =
        if (acc.reverse ++ l).isEmpty then [] else [acc.reverse ++ l] := by
  intro l
  induction l with
  | nil =>
    intro acc _
    by_cases hacc : acc.isEmpty <;> simp_all [splitRuns, List.isEmpty_iff]
  | cons c t ih =>
    intro acc h
    have hc : p c = false := h c (List.mem_cons_self c t)
    have ht : ∀ x ∈ t, p x = false := fun x hx => h x (List.mem_cons_of_mem c hx)
    rw [show splitRuns p (c :: t) acc = splitRuns p t (c :: acc) by simp [splitRuns, hc]]
    rw [ih (c :: acc) ht]
    simp

theorem goodNameB_spec {n : String} (h : goodNameB n = true) :
    n.toList ≠ [] ∧ ∀ c ∈ n.toList, ¬ c = '/' := by
  unfold goodNameB at h
  rw [Bool.and_eq_true] at h
  obtain ⟨h1, h2⟩ := h
  refine ⟨?_, ?_⟩
  · intro hl
    have hn : n = "" := String.ext (by simpa using hl)
    rw [hn] at h1
    simp at h1
  · intro c hc hceq
    have := (List.all_eq_true.mp h2) c hc
    rw [hceq] at this
    simp at this

theorem splitRuns_goodName {name : String} (h : goodNameB name = true) :
    splitRuns (fun c => decide (c = '/')) name.toList [] = [name.toList] := by
  obtain ⟨h1, h2⟩ := goodNameB_spec h
  rw [splitRuns_no_sep _ _ [] (fun x hx => by simpa using h2 x hx)]
  simp only [List.reverse_nil, List.nil_append]
  rw [if_neg (by simp [List.isEmpty_iff]; exact h1)]

theorem eq_append_of_getLast? :
    ∀ {l : List Char} {c : Char}, l.getLast? = some c → ∃ t, l = t ++ [c]
  | [], _, h => by simp at h
  | [a], c, h => by
      simp at h
      exact ⟨[], by simp [h]⟩
  | a :: b :: u, c, h => by
      rw [List.getLast?_cons_cons] at h
      obtain ⟨t1, ht⟩ := eq_append_of_getLast? h
      exact ⟨a :: t1, by simp [ht]⟩

theorem pathComps_joinRemote (rd : String) {name : String} (h : goodNameB name = true) :
    pathComps (joinRemote rd name) = pathComps rd ++ [name] := by
  unfold joinRemote
  by_cases he : endsWithSlash rd
  · rw [if_pos he]
    have hlast : rd.toList.getLast? = some '/' := by
      unfold endsWithSlash at he
      exact (beq_iff_eq).mp he
    obtain ⟨t, ht⟩ := eq_append_of_getLast? hlast
    unfold pathComps
    rw [toList_append, ht, List.append_assoc, List.singleton_append,
      splitRuns_append_sep _ '/' (by simp), splitRuns_goodName h,
      show t ++ ['/'] = t ++ '/' :: [] from rfl,
      splitRuns_append_sep _ '/' (by simp)]
    simp [splitRuns, asString_toList, asString_data]
  · rw [if_neg he]
    unfold pathComps
    rw [show (rd ++ "/" ++ name).toList = rd.toList ++ '/' :: name.toList by
      rw [toList_append, toList_append]; simp,
      splitRuns_append_sep _ '/' (by simp), splitRuns_goodName h]
    simp [asString_toList, asString_data]

theorem lookup_mem {α β : Type} [BEq α] [LawfulBEq α] :
    ∀ {l : List (α × β)} {k : α} {v : β}, l.lookup k = some v → (k, v) ∈ l := by
  intro l
  induction l with
  | nil => intro k v h; simp [List.lookup] at h
  | cons a t ih =>
    intro k v h
    obtain ⟨k1, v1⟩ := a
    by_cases hk : k == k1
    · have hkk : k = k1 := eq_of_beq hk
      have hv : v1 = v := by simpa [List.lookup, hk] using h
      subst hkk; subst hv
      exact List.mem_cons_self _ _
    · have ht : t.lookup k = some v := by simpa [List.lookup, hk] using h
      exact List.mem_cons_of_mem _ (ih ht)

theorem serverWFB_lines {srv : Server} {k : List String} {lines : List String}
    (hwf : serverWFB srv = true) (hl : srv.dirs.lookup k = some lines) :
    ∀ line ∈ lines, ∀ e, parseLine line = some e → goodNameB e.name = true := by
  intro line hline e he
  have hmem : (k, lines) ∈ srv.dirs := lookup_mem hl
  have h1 := (List.all_eq_true.mp hwf) _ hmem
  have h2 := (List.all_eq_true.mp h1) _ hline
  unfold goodLineB at h2
  rw [he] at h2
  exact h2

/-! ### Field-preservation lemmas for the state operations -/

theorem ensureLocalDir_fields (p : String) (st : St) :
    (ensureLocalDir p st).cursor = st.cursor ∧ (ensureLocalDir p st).events = st.events := by
  unfold ensureLocalDir
  split <;> simp

theorem ftpCwd_some {srv : Server} {p : String} {st st1 : St}
    (h : ftpCwd srv p st = some st1) :
    st1 = { st with cursor := pathComps p } ∧
      ∃ lines, srv.dirs.lookup (pathComps p) = some lines := by
  unfold ftpCwd at h
  cases hl : srv.dirs.lookup (pathComps p) with
  | none => rw [hl] at h; cases h
  | some lines => rw [hl] at h; exact ⟨(Option.some.inj h).symm, lines, rfl⟩

theorem downloadFile_cursor (srv : Server) (fn rp lp : String) (dr : Bool) (st : St) :
    ((downloadFile srv fn rp lp dr st).1).cursor = st.cursor := by
  unfold downloadFile
  dsimp only
  repeat' split
  all_goals rfl

theorem downloadFile_event (srv : Server) (fn rp lp : String) (dr : Bool) (st : St) :
    ∃ e : Event, ((downloadFile srv fn rp lp dr st).1).events = st.events ++ [e] ∧
      (downloadFile srv fn rp lp dr st).2 = some (!isFailureEvent e) := by
  unfold downloadFile
  dsimp only
  split
  · exact ⟨Event.errorEvent rp, rfl, rfl⟩
  · split
    · exact ⟨Event.errorEvent rp, rfl, rfl⟩
    · split
      · split
        · split
          · exact ⟨Event.errorEvent rp, rfl, rfl⟩
          · exact ⟨Event.downloadedAndDeleted rp lp, rfl, rfl⟩
        · exact ⟨Event.downloaded rp lp, rfl, rfl⟩
      · exact ⟨Event.downloadFailed rp, rfl, rfl⟩

theorem downloadFile_cursorH {srv : Server} {fn rp lp : String} {dr : Bool}
    {st st' : St} {r : Option Bool}
    (h : downloadFile srv fn rp lp dr st = (st', r)) : st'.cursor = st.cursor := by
  have h1 : (downloadFile srv fn rp lp dr st).1 = st' := by rw [h]
  rw [← h1]
  exact downloadFile_cursor srv fn rp lp dr st

theorem downloadFile_eventH {srv : Server} {fn rp lp : String} {dr : Bool}
    {st st' : St} {r : Option Bool}
    (h : downloadFile srv fn rp lp dr st = (st', r)) :
    ∃ e : Event, st'.events = st.events ++ [e] ∧ r = some (!isFailureEvent e) := by
  obtain ⟨e, he, hr⟩ := downloadFile_event srv fn rp lp dr st
  have h1 : (downloadFile srv fn rp lp dr st).1 = st' := by rw [h]
  have h2 : (downloadFile srv fn rp lp dr st).2 = r := by rw [h]
  rw [h1] at he
  rw [h2] at hr
  exact ⟨e, he, hr⟩

/-! ### The event-trace characterization of the success flag -/

theorem processEntry_trace {srv : Server}
    {rec : String → String → St → St × Option Bool}
    (hrec : ∀ rp ld s s' b, rec rp ld s = (s', some b) →
      ∃ Δ, s'.events = s.events ++ Δ ∧ b = cleanEvents Δ) :
    ∀ {rd ld : String} {dr fl : Bool} {item : String} {st st' : St} {ok : Bool},
      processEntry srv rec rd ld dr fl item st = (st', some ok) →
      ∃ Δ, st'.events = st.events ++ Δ ∧ ok = cleanEvents Δ := by
  intro rd ld dr fl item st st' ok h
  unfold processEntry at h
  rcases hp : parseLine item with _ | entry
  · rw [hp] at h
    injection h with h1 h2
    injection h2 with h2
    subst h1; subst h2
    exact ⟨[], by simp, by simp [cleanEvents]⟩
  · rw [hp] at h
    dsimp only at h
    by_cases hd : entry.isDirectory
    · rw [if_pos hd] at h
      by_cases hf : fl
      · rw [if_pos hf] at h; exact hrec _ _ _ _ _ h
      · rw [if_neg hf] at h; exact hrec _ _ _ _ _ h
    · rw [if_neg hd] at h
      obtain ⟨e, he, hr⟩ := downloadFile_eventH h
      injection hr with hr
      exact ⟨[e], he, by rw [hr]; simp [cleanEvents]⟩

theorem processList_trace {srv : Server}
    {rec : String → String → St → St × Option Bool}
    (hrec : ∀ rp ld s s' b, rec rp ld s = (s', some b) →
      ∃ Δ, s'.events = s.events ++ Δ ∧ b = cleanEvents Δ) :
    ∀ (items : List String) {rd ld : String} {dr fl : Bool} {st st' : St} {b : Bool},
      processList srv rec rd ld dr fl items st = (st', some b) →
      ∃ Δ, st'.events = st.events ++ Δ ∧ b = cleanEvents Δ := by
  intro items
  induction items with
  | nil =>
    intro rd ld dr fl st st' b h
    simp only [processList] at h
    injection h with h1 h2
    injection h2 with h2
    subst h1; subst h2
    exact ⟨[], by simp, by simp [cleanEvents]⟩
  | cons item rest ih =>
    intro rd ld dr fl st st' b h
    simp only [processList] at h
    rcases he : processEntry srv rec rd ld dr fl item st with ⟨st1, r1⟩
    rw [he] at h
    rcases r1 with _ | ok
    · exact absurd h (by simp)
    · dsimp only at h
      rcases hl : processList srv rec rd ld dr fl rest st1 with ⟨st2, r2⟩
      rw [hl] at h
      rcases r2 with _ | oks
      · exact absurd h (by simp)
      · dsimp only at h
        injection h with h1 h2
        injection h2 with h2
        subst h1; subst h2
        obtain ⟨d1, he1, hb1⟩ := processEntry_trace hrec he
        obtain ⟨d2, he2, hb2⟩ := ih hl
        refine ⟨d1 ++ d2, ?_, ?_⟩
        · rw [he2, he1, List.append_assoc]
        · rw [hb1, hb2]
          simp [cleanEvents, List.all_append]

theorem processDirectory_trace :
    ∀ (fuel : Nat) {srv : Server} {dr fl : Bool} {rd ld : String} {st st' : St} {b : Bool},
      processDirectory srv dr fl fuel rd ld st = (st', some b) →
      ∃ Δ, st'.events = st.events ++ Δ ∧ b = cleanEvents Δ := by
  intro fuel
  induction fuel with
  | zero =>
    intro srv dr fl rd ld st st' b h
    simp [processDirectory] at h
  | succ fuel ih =>
    intro srv dr fl rd ld st st' b h
    simp only [processDirectory] at h
    rcases hc : ftpCwd srv rd st with _ | st1
    · rw [hc] at h; exact absurd h (by simp)
    · rw [hc] at h
      dsimp only at h
      obtain ⟨hst1, lines, hlk⟩ := ftpCwd_some hc
      split at h
      · exact absurd h (by simp)
      · rename_i st3 success heq
        injection h with h1 h2
        injection h2 with h2
        obtain ⟨d, hd1, hd2⟩ :=
          processList_trace (fun rp ld s s' b hh => ih hh) _ heq
        refine ⟨d, ?_, by rw [← h2, hd2]⟩
        have hev2 : ((if fl then st1 else ensureLocalDir ld st1)).events = st.events := by
          by_cases hfl : fl
          · rw [if_pos hfl, hst1]
          · rw [if_neg hfl, (ensureLocalDir_fields ld st1).2, hst1]
        rw [← h1]
        dsimp only
        rw [hd1, hev2]

/-! ### The cursor-restore invariant -/

theorem processEntry_cursor {srv : Server}
    {rec : String → String → St → St × Option Bool} {rd : String}
    (hrec : ∀ rp ld s s' b, rec rp ld s = (s', some b) →
      s'.cursor = (pathComps rp).dropLast) :
    ∀ {ld : String} {dr fl : Bool} {item : String} {st st' : St} {ok : Bool},
      (∀ e, parseLine item = some e → goodNameB e.name = true) →
      st.cursor = pathComps rd →
      processEntry srv rec rd ld dr fl item st = (st', some ok) →
      st'.cursor = pathComps rd := by
  intro ld dr fl item st st' ok hgood hcur h
  unfold processEntry at h
  rcases hp : parseLine item with _ | entry
  · rw [hp] at h
    injection h with h1 _
    rw [← h1]; exact hcur
  · rw [hp] at h
    dsimp only at h
    have hgn : goodNameB entry.name = true := hgood entry hp
    by_cases hd : entry.isDirectory
    · rw [if_pos hd] at h
      have hjoin := pathComps_joinRemote rd hgn
      by_cases hf : fl
      · rw [if_pos hf] at h
        rw [hrec _ _ _ _ _ h, hjoin, List.dropLast_concat]
      · rw [if_neg hf] at h
        rw [hrec _ _ _ _ _ h, hjoin, List.dropLast_concat]
    · rw [if_neg hd] at h
      rw [downloadFile_cursorH h]
      exact hcur

theorem processList_cursor {srv : Server}
    {rec : String → String → St → St × Option Bool} {rd : String}
    (hrec : ∀ rp ld s s' b, rec rp ld s = (s', some b) →
      s'.cursor = (pathComps rp).dropLast) :
    ∀ (items : List String) {ld : String} {dr fl : Bool} {st st' : St} {b : Bool},
      (∀ line ∈ items, ∀ e, parseLine line = some e → goodNameB e.name = true) →
      st.cursor = pathComps rd →
      processList srv rec rd ld dr fl items st = (st', some b) →
      st'.cursor = pathComps rd := by
  intro items
  induction items with
  | nil =>
    intro ld dr fl st st' b _ hcur h
    simp only [processList] at h
    injection h with h1 _
    rw [← h1]; exact hcur
  | cons item rest ih =>
    intro ld dr fl st st' b hgood hcur h
    simp only [processList] at h
    rcases he : processEntry srv rec rd ld dr fl item st with ⟨st1, r1⟩
    rw [he] at h
    rcases r1 with _ | ok
    · exact absurd h (by simp)
    · dsimp only at h
      rcases hl : processList srv rec rd ld dr fl rest st1 with ⟨st2, r2⟩
      rw [hl] at h
      rcases r2 with _ | oks
      · exact absurd h (by simp)
      · dsimp only at h
        injection h with h1 _
        have hcur1 : st1.cursor = pathComps rd :=
          processEntry_cursor hrec (fun e hp => hgood item (List.mem_cons_self _ _) e hp) hcur he
        have hcur2 : st2.cursor = pathComps rd :=
          ih (fun line hline => hgood line (List.mem_cons_of_mem _ hline)) hcur1 hl
        rw [← h1]; exact hcur2

theorem processDirectory_cursor :
    ∀ (fuel : Nat) {srv : Server} {dr fl : Bool} {rd ld : String} {st st' : St} {b : Bool},
      serverWFB srv = true →
      processDirectory srv dr fl fuel rd ld st = (st', some b) →
      st'.cursor = (pathComps rd).dropLast := by
  intro fuel
  induction fuel with
  | zero =>
    intro srv dr fl rd ld st st' b _ h
    simp [processDirectory] at h
  | succ fuel ih =>
    intro srv dr fl rd ld st st' b hwf h
    simp only [processDirectory] at h
    rcases hc : ftpCwd srv rd st with _ | st1
    · rw [hc] at h; exact absurd h (by simp)
    · rw [hc] at h
      dsimp only at h
      obtain ⟨hst1, lines, hlk⟩ := ftpCwd_some hc
      have hcur2 : ((if fl then st1 else ensureLocalDir ld st1)).cursor = pathComps rd := by
        by_cases hfl : fl
        · rw [if_pos hfl, hst1]
        · rw [if_neg hfl, (ensureLocalDir_fields ld st1).1, hst1]
      have hlines : (srv.dirs.lookup ((if fl then st1 else ensureLocalDir ld st1)).cursor).getD []
          = lines := by rw [hcur2, hlk]; rfl
      split at h
      · exact absurd h (by simp)
      · rename_i st3 success heq
        injection h with h1 _
        rw [hlines] at heq
        have hcur3 : st3.cursor = pathComps rd :=
          processList_cursor (fun rp ld s s' b hh => ih hwf hh) lines
            (serverWFB_lines hwf hlk) hcur2 heq
        rw [← h1]
        dsimp only
        rw [hcur3]

theorem lookup_cons_self {α β : Type} [BEq α] [LawfulBEq α] (k : α) (v : β)
    (t : List (α × β)) : List.lookup k ((k, v) :: t) = some v := by
  simp [List.lookup]

theorem mainInit_events (srv : Server) (a : Args) (l0 : List (String × Nat)) :
    (mainInit srv a l0).events = [] := by
  unfold mainInit
  rw [(ensureLocalDir_fields _ _).2]
  rfl

/-! ### Concrete servers used as test inputs -/

/-- Server for claim C1: the root lists `d1`; `d1` lists
subdirectories `a` and `b`, but `a` does not actually exist on the
server, so `cwd` into it raises; `b` holds a healthy file. -/
def srvA : Server :=
  { dirs := [([], ["drwxr-xr-x 2 u g 4096 Jan 1 00:00 d1"]),
             (["d1"], ["drwxr-xr-x 2 u g 4096 Jan 1 00:00 a",
                       "drwxr-xr-x 2 u g 4096 Jan 1 00:00 b"]),
             (["d1", "b"], ["-rw-r--r-- 1 u g 5 Jan 1 00:00 f.txt"])],
    files := [(["d1", "b", "f.txt"], 5)],
    retrFail := [], deleteFail := [], connectFail := false }

/-- Server for claim C2's witness: a single subdirectory with one file. -/
def srvW : Server :=
  { dirs := [([], ["drwxr-xr-x 2 u g 4096 Jan 1 00:00 a"]),
             (["a"], ["-rw-r--r-- 1 u g 2 Jan 1 00:00 x.txt"])],
    files := [(["a", "x.txt"], 2)],
    retrFail := [], deleteFail := [], connectFail := false }

/-- Server for claim C3: one directory `a`, reached through the
user-supplied remote root `//a`, holding one file. -/
def srv3 : Server :=
  { dirs := [(["a"], ["-rw-r--r-- 1 u g 3 Jan 1 00:00 c.txt"])],
    files := [(["a", "c.txt"], 3)],
    retrFail := [], deleteFail := [], connectFail := false }

/-- Arguments for claim C3: flatten mode starting at `//a` (main only
guarantees a leading slash, so a double slash passes through). -/
def args3 : Args :=
  { remote_dir := "//a", local_dir := "/L", delete_remote := false, flatten := true }

/-! ### Claim C1 -/

/-- Claim C1 is false on the code: on `srvA`, the `cwd` failure on the
listed subdirectory `/d1/a` is NOT caught at the recursion frame.  The
whole walk evaluates to an escaped exception (`none`) instead of a
`false` result, and the sibling `b` is never processed (no events, no
local files). -/
theorem C1_counterexample :
    (processDirectory srvA false false 10 "/" "/L" (initSt srvA [])).2 = none ∧
    ((processDirectory srvA false false 10 "/" "/L" (initSt srvA [])).1).events = [] ∧
    ((processDirectory srvA false false 10 "/" "/L" (initSt srvA [])).1).localFiles = [] := by
  refine ⟨?_, ?_, ?_⟩ <;> rfl

/-- Claim C1, amended: a failure to `cwd` into a listed subdirectory is
not caught inside the walk.  (1) The failing frame raises with the
state unchanged, producing no `WalkResult`; (2) the exception aborts the
enclosing item loop, skipping all remaining siblings; (3) it is caught
only by main's top-level handler, which turns it into exit code 1.
Only per-file transfer errors are caught at file granularity. -/
theorem C1_amended :
    (∀ (srv : Server) (dr fl : Bool) (fuel : Nat) (rd ld : String) (st : St),
        srv.dirs.lookup (pathComps rd) = none →
        processDirectory srv dr fl (fuel + 1) rd ld st = (st, none)) ∧
    (∀ (srv : Server) (rec : String → String → St → St × Option Bool)
        (rd ld : String) (dr fl : Bool) (item : String) (rest : List String)
        (st st1 : St),
        processEntry srv rec rd ld dr fl item st = (st1, none) →
        processList srv rec rd ld dr fl (item :: rest) st = (st1, none)) ∧
    (∀ (srv : Server) (a : Args) (fuel : Nat) (l0 : List (String × Nat)) (st : St),
        srv.connectFail = false →
        processDirectory srv a.delete_remote a.flatten fuel (normRemoteDir a.remote_dir)
          a.local_dir (mainInit srv a l0) = (st, none) →
        mainRun srv a fuel l0 = (1, st)) := by
  refine ⟨?_, ?_, ?_⟩
  · intro srv dr fl fuel rd ld st h
    simp only [processDirectory]
    unfold ftpCwd
    rw [h]
  · intro srv rec rd ld dr fl item rest st st1 h
    simp only [processList]
    rw [h]
  · intro srv a fuel l0 st hcf h
    unfold mainRun
    dsimp only
    rw [hcf]
    rw [h]
    rfl

theorem C1_witness :
    processDirectory srvA false false 3 "/nope" "/L" (initSt srvA []) = (initSt srvA [], none) :=
  C1_amended.1 srvA false false 2 "/nope" "/L" (initSt srvA []) (by decide)

/-! ### Claim C2 -/

/-- Claim C2: every walk frame that returns a `WalkResult` (on any
return path, including when children or per-file operations failed) has
repositioned the remote cursor to the parent of its directory, for any
well-formed server (listing names nonempty and free of separators, as
real FTP servers produce). -/
theorem C2_cursor_restored (srv : Server) (dr fl : Bool) (fuel : Nat)
    (rd ld : String) (st st' : St) (b : Bool)
    (hwf : serverWFB srv = true)
    (h : processDirectory srv dr fl fuel rd ld st = (st', some b)) :
    st'.cursor = (pathComps rd).dropLast :=
  processDirectory_cursor fuel hwf h

theorem C2_witness :
    ((processDirectory srvW false false 3 "/a" "/L" (initSt srvW [])).1).cursor
      = (pathComps "/a").dropLast :=
  C2_cursor_restored srvW false false 3 "/a" "/L" (initSt srvW [])
    ((processDirectory srvW false false 3 "/a" "/L" (initSt srvW [])).1) true
    (by decide) (by decide)

/-! ### Claim C3 -/

/-- Claim C3 is false on the code: the source's sanitizer strips ALL
leading separators (Python `lstrip`), not a single one as the claim
states.  On the reachable remote path `//a/c.txt` (remote root `//a`
passes main's normalization unchanged) the code produces local name
`a_c.txt` while the claimed sanitizer produces `_a_c.txt`; the flatten
walk indeed writes `/L/a_c.txt` and not `/L/_a_c.txt`. -/
theorem C3_counterexample :
    safeRemotePath "//a/c.txt" = "a_c.txt" ∧
    sanitizeSpec "//a/c.txt" = "_a_c.txt" ∧
    ("a_c.txt" : String) ≠ "_a_c.txt" ∧
    ((mainRun srv3 args3 3 []).2).localFiles.lookup "/L/a_c.txt" = some 3 ∧
    ((mainRun srv3 args3 3 []).2).localFiles.lookup "/L/_a_c.txt" = none := by
  refine ⟨?_, ?_, ?_, ?_, ?_⟩ <;> decide

/-- Claim C3, amended: in flatten mode the local file name is
`sanitize(remotePath)` where `sanitize` strips ALL leading path
separators and replaces every remaining separator with an underscore.
The claim's examples hold (`/a/b/c.txt` to `a_b_c.txt`, `/c.txt` to
`c.txt`), and the code's sanitizer agrees with the spec's
single-strip sanitizer on every path that does not begin with two
separators. -/
theorem C3_amended :
    safeRemotePath "/a/b/c.txt" = "a_b_c.txt" ∧
    safeRemotePath "/c.txt" = "c.txt" ∧
    ∀ s : String, s.toList.take 2 ≠ ['/', '/'] → safeRemotePath s = sanitizeSpec s := by
  refine ⟨rfl, rfl, ?_⟩
  intro s hs
  unfold safeRemotePath pyReplaceSlash pyLstripSlash sanitizeSpec
  rcases hl : s.toList with _ | ⟨c, t⟩
  · simp [toList_asString, data_asString]
  · by_cases hc : c = '/'
    · subst hc
      have ht : t.dropWhile (fun c => decide (c = '/')) = t := by
        cases t with
        | nil => rfl
        | cons d u =>
          have hd : ¬ d = '/' := fun hdEq => hs (by rw [hl, hdEq]; rfl)
          simp [List.dropWhile_cons, hd]
      simp [List.dropWhile_cons, ht, toList_asString, data_asString]
    · simp [List.dropWhile_cons, hc, toList_asString, data_asString]

theorem C3_witness : safeRemotePath "/w/x.txt" = sanitizeSpec "/w/x.txt" :=
  C3_amended.2.2 "/w/x.txt" (by decide)

/-- Server for claims C4/C5: a root with five files (f3 empty for C5),
and for C4 a variant with only empty files. -/
def srv5 : Server :=
  { dirs := [([], ["-rw-r--r-- 1 u g 1 Jan 1 00:00 f1.txt",
                   "-rw-r--r-- 1 u g 1 Jan 1 00:00 f2.txt",
                   "-rw-r--r-- 1 u g 0 Jan 1 00:00 f3.txt",
                   "-rw-r--r-- 1 u g 1 Jan 1 00:00 f4.txt",
                   "-rw-r--r-- 1 u g 1 Jan 1 00:00 f5.txt"])],
    files := [(["f1.txt"], 1), (["f2.txt"], 1), (["f3.txt"], 0),
              (["f4.txt"], 1), (["f5.txt"], 1)],
    retrFail := [], deleteFail := [], connectFail := false }

/-- Server for claim C4: a subtree holding only zero-byte files. -/
def srv0 : Server :=
  { dirs := [([], ["drwxr-xr-x 2 u g 4096 Jan 1 00:00 sub",
                   "-rw-r--r-- 1 u g 0 Jan 1 00:00 e0.txt"]),
             (["sub"], ["-rw-r--r-- 1 u g 0 Jan 1 00:00 e1.txt"])],
    files := [(["e0.txt"], 0), (["sub", "e1.txt"], 0)],
    retrFail := [], deleteFail := [], connectFail := false }

/-- Server for claim C10's witness: `RETR g.txt` raises mid-transfer. -/
def srvF : Server :=
  { dirs := [([], ["-rw-r--r-- 1 u g 7 Jan 1 00:00 g.txt"])],
    files := [(["g.txt"], 7)],
    retrFail := [["g.txt"]], deleteFail := [], connectFail := false }

/-- Pre-existing local state for claim C10's witness: the destination
already holds 7 bytes. -/
def stF : St :=
  { cursor := [], remoteFiles := srvF.files, localFiles := [("/L/g.txt", 7)],
    localDirs := [], deleteAttempts := [], events := [] }

/-! ### Claim C4 -/

/-- Claim C4: (1) with no deletion requested, a file transfer is
recorded successful exactly when the local artifact exists with
nonzero size afterwards; (2) a zero-byte remote file whose transfer
call reports no error is nevertheless recorded as failed
(`DownloadFailed`, item result `false`, no deletion attempted);
(3) on `srv0`, whose subtree holds only zero-byte files, the walk
returns `false` for the root branch and for the `/sub` branch. -/
theorem C4_verification_gate :
    (∀ (srv : Server) (fn rp lp : String) (st st' : St) (ok : Bool),
        downloadFile srv fn rp lp false st = (st', some ok) →
        (ok = true ↔ ∃ n, st'.localFiles.lookup lp = some n ∧ 0 < n)) ∧
    (∀ (srv : Server) (fn rp lp : String) (dr : Bool) (st : St),
        srv.retrFail.contains (st.cursor ++ pathComps fn) = false →
        st.remoteFiles.lookup (st.cursor ++ pathComps fn) = some 0 →
        (downloadFile srv fn rp lp dr st).2 = some false ∧
        ((downloadFile srv fn rp lp dr st).1).events
          = st.events ++ [Event.downloadFailed rp] ∧
        ((downloadFile srv fn rp lp dr st).1).deleteAttempts = st.deleteAttempts) ∧
    ((processDirectory srv0 false false 3 "/" "/L" (initSt srv0 [])).2 = some false ∧
      (processDirectory srv0 false false 2 "/sub" "/LS" (initSt srv0 [])).2 = some false) := by
  refine ⟨?_, ?_, by decide, by decide⟩
  · intro srv fn rp lp st st' ok h
    unfold downloadFile at h
    dsimp only at h
    split at h
    · injection h with h1 h2
      injection h2 with h2
      subst h2
      rw [← h1]
      dsimp only
      rw [lookup_cons_self]
      simp
    · split at h
      · injection h with h1 h2
        injection h2 with h2
        subst h2
        rw [← h1]
        dsimp only
        rw [lookup_cons_self]
        simp
      · rename_i size hsize
        rw [lookup_cons_self] at h
        simp only [Bool.false_eq_true, if_false] at h
        split at h
        · rename_i hver
          injection h with h1 h2
          injection h2 with h2
          subst h2
          rw [← h1]
          dsimp only
          rw [lookup_cons_self]
          simp only [true_iff]
          exact ⟨size, rfl, of_decide_eq_true hver⟩
        · rename_i hver
          injection h with h1 h2
          injection h2 with h2
          subst h2
          rw [← h1]
          dsimp only
          rw [lookup_cons_self]
          simp only [Bool.false_eq_true, false_iff, not_exists]
          intro n hn
          obtain ⟨hsn, h0⟩ := hn
          injection hsn with hsn
          subst hsn
          exact hver (decide_eq_true h0)
  · intro srv fn rp lp dr st hrf hlk
    have hrf2 : st.cursor ++ pathComps fn ∉ srv.retrFail := by simp_all
    refine ⟨?_, ?_, ?_⟩ <;>
      simp [downloadFile, hrf2, hlk, lookup_cons_self]

theorem C4_witness :
    (downloadFile srv0 "e0.txt" "/e0.txt" "/L/e0.txt" false (initSt srv0 [])).2 = some false ∧
    ((downloadFile srv0 "e0.txt" "/e0.txt" "/L/e0.txt" false (initSt srv0 [])).1).events
      = (initSt srv0 []).events ++ [Event.downloadFailed "/e0.txt"] ∧
    ((downloadFile srv0 "e0.txt" "/e0.txt" "/L/e0.txt" false (initSt srv0 [])).1).deleteAttempts
      = (initSt srv0 []).deleteAttempts :=
  C4_verification_gate.2.1 srv0 "e0.txt" "/e0.txt" "/L/e0.txt" false (initSt srv0 [])
    (by decide) (by decide)

/-! ### Claim C5 -/

/-- Claim C5: (1) a frame's `WalkResult` is `true` exactly when its
subtree's event trace is clean — i.e. it is the conjunction of all its
own file outcomes and child results; (2) after any item (failed or
not), the loop continues with the remaining siblings from the updated
state and ANDs the outcomes; (3) concretely, with file 3 of 5 failing
verification, all five files are attempted (five events, four
`Downloaded`) and the frame's result is `false`. -/
theorem C5_aggregation :
    (∀ (srv : Server) (dr fl : Bool) (fuel : Nat) (rd ld : String) (st st' : St) (b : Bool),
        processDirectory srv dr fl fuel rd ld st = (st', some b) →
        ∃ d, st'.events = st.events ++ d ∧ b = cleanEvents d) ∧
    (∀ (srv : Server) (rec : String → String → St → St × Option Bool)
        (rd ld : String) (dr fl : Bool) (item : String) (rest : List String)
        (st st1 : St) (ok : Bool),
        processEntry srv rec rd ld dr fl item st = (st1, some ok) →
        processList srv rec rd ld dr fl (item :: rest) st =
          ((processList srv rec rd ld dr fl rest st1).1,
            (processList srv rec rd ld dr fl rest st1).2.map (fun oks => ok && oks))) ∧
    ((processDirectory srv5 false false 2 "/" "/L" (initSt srv5 [])).2 = some false ∧
      ((processDirectory srv5 false false 2 "/" "/L" (initSt srv5 [])).1).events =
        [Event.downloaded "/f1.txt" "/L/f1.txt", Event.downloaded "/f2.txt" "/L/f2.txt",
         Event.downloadFailed "/f3.txt", Event.downloaded "/f4.txt" "/L/f4.txt",
         Event.downloaded "/f5.txt" "/L/f5.txt"]) := by
  refine ⟨?_, ?_, by decide, by decide⟩
  · intro srv dr fl fuel rd ld st st' b h
    exact processDirectory_trace fuel h
  · intro srv rec rd ld dr fl item rest st st1 ok h
    simp only [processList]
    rw [h]
    dsimp only
    rcases hr : processList srv rec rd ld dr fl rest st1 with ⟨st2, r2⟩
    rcases r2 with _ | oks <;> simp

theorem C5_witness :
    ∃ d, ((processDirectory srv5 false false 2 "/" "/L" (initSt srv5 [])).1).events
        = (initSt srv5 []).events ++ d ∧ false = cleanEvents d :=
  C5_aggregation.1 srv5 false false 2 "/" "/L" (initSt srv5 [])
    ((processDirectory srv5 false false 2 "/" "/L" (initSt srv5 [])).1) false (by decide)

/-! ### Claim C6 -/

/-- Claim C6: remote deletion is never attempted for a file that fails
verification or whose transfer raised: (1) in all those cases the
delete log and the remote files are untouched; (2) any delete attempt
implies the flag was set and the transfer succeeded with nonzero size;
(3) a verified success with the flag set attempts the delete and logs
`DownloadedAndDeleted`; (4) a verified success without the flag
attempts no delete and logs `Downloaded`. -/
theorem C6_delete_gating :
    (∀ (srv : Server) (fn rp lp : String) (dr : Bool) (st : St),
        (st.remoteFiles.lookup (st.cursor ++ pathComps fn) = some 0 ∨
         st.remoteFiles.lookup (st.cursor ++ pathComps fn) = none ∨
         srv.retrFail.contains (st.cursor ++ pathComps fn) = true) →
        ((downloadFile srv fn rp lp dr st).1).deleteAttempts = st.deleteAttempts ∧
        ((downloadFile srv fn rp lp dr st).1).remoteFiles = st.remoteFiles) ∧
    (∀ (srv : Server) (fn rp lp : String) (dr : Bool) (st : St),
        ((downloadFile srv fn rp lp dr st).1).deleteAttempts ≠ st.deleteAttempts →
        dr = true ∧ srv.retrFail.contains (st.cursor ++ pathComps fn) = false ∧
        ∃ n, st.remoteFiles.lookup (st.cursor ++ pathComps fn) = some n ∧ 0 < n) ∧
    (∀ (srv : Server) (fn rp lp : String) (st : St) (n : Nat),
        srv.retrFail.contains (st.cursor ++ pathComps fn) = false →
        st.remoteFiles.lookup (st.cursor ++ pathComps fn) = some n → 0 < n →
        srv.deleteFail.contains (st.cursor ++ pathComps fn) = false →
        (downloadFile srv fn rp lp true st).2 = some true ∧
        ((downloadFile srv fn rp lp true st).1).deleteAttempts
          = st.deleteAttempts ++ [st.cursor ++ pathComps fn] ∧
        ((downloadFile srv fn rp lp true st).1).events
          = st.events ++ [Event.downloadedAndDeleted rp lp]) ∧
    (∀ (srv : Server) (fn rp lp : String) (st : St) (n : Nat),
        srv.retrFail.contains (st.cursor ++ pathComps fn) = false →
        st.remoteFiles.lookup (st.cursor ++ pathComps fn) = some n → 0 < n →
        (downloadFile srv fn rp lp false st).2 = some true ∧
        ((downloadFile srv fn rp lp false st).1).deleteAttempts = st.deleteAttempts ∧
        ((downloadFile srv fn rp lp false st).1).events
          = st.events ++ [Event.downloaded rp lp]) := by
  refine ⟨?_, ?_, ?_, ?_⟩
  · intro srv fn rp lp dr st h
    rcases h with h | h | h
    · constructor <;>
        by_cases hrf : st.cursor ++ pathComps fn ∈ srv.retrFail <;>
          simp [downloadFile, hrf, h, lookup_cons_self]
    · constructor <;>
        by_cases hrf : st.cursor ++ pathComps fn ∈ srv.retrFail <;>
          simp [downloadFile, hrf, h, lookup_cons_self]
    · have h2 : st.cursor ++ pathComps fn ∈ srv.retrFail := by simp_all
      constructor <;> simp [downloadFile, h2]
  · intro srv fn rp lp dr st h
    by_cases hrf : st.cursor ++ pathComps fn ∈ srv.retrFail
    · exact absurd (by simp [downloadFile, hrf]) h
    · rcases hlk : st.remoteFiles.lookup (st.cursor ++ pathComps fn) with _ | n
      · exact absurd (by simp [downloadFile, hrf, hlk]) h
      · by_cases h0 : 0 < n
        · rcases dr with _ | _
          · exact absurd
              (by simp [downloadFile, hrf, hlk, lookup_cons_self, h0]) h
          · exact ⟨rfl, by simpa using hrf, n, rfl, h0⟩
        · exact absurd
            (by simp [downloadFile, hrf, hlk, lookup_cons_self, h0]) h
  · intro srv fn rp lp st n hrf hlk h0 hdf
    have hrf2 : st.cursor ++ pathComps fn ∉ srv.retrFail := by simp_all
    have hdf2 : st.cursor ++ pathComps fn ∉ srv.deleteFail := by simp_all
    refine ⟨?_, ?_, ?_⟩ <;>
      simp [downloadFile, hrf2, hlk, hdf2, lookup_cons_self, h0]
  · intro srv fn rp lp st n hrf hlk h0
    have hrf2 : st.cursor ++ pathComps fn ∉ srv.retrFail := by simp_all
    refine ⟨?_, ?_, ?_⟩ <;>
      simp [downloadFile, hrf2, hlk, lookup_cons_self, h0]

theorem C6_witness :
    (downloadFile srvW "x.txt" "/a/x.txt" "/L/a/x.txt" true
        { initSt srvW [] with cursor := ["a"] }).2 = some true ∧
    ((downloadFile srvW "x.txt" "/a/x.txt" "/L/a/x.txt" true
        { initSt srvW [] with cursor := ["a"] }).1).deleteAttempts
      = ({ initSt srvW [] with cursor := ["a"] } : St).deleteAttempts
          ++ [({ initSt srvW [] with cursor := ["a"] } : St).cursor ++ pathComps "x.txt"] ∧
    ((downloadFile srvW "x.txt" "/a/x.txt" "/L/a/x.txt" true
        { initSt srvW [] with cursor := ["a"] }).1).events
      = ({ initSt srvW [] with cursor := ["a"] } : St).events
          ++ [Event.downloadedAndDeleted "/a/x.txt" "/L/a/x.txt"] :=
  C6_delete_gating.2.2.1 srvW "x.txt" "/a/x.txt" "/L/a/x.txt"
    { initSt srvW [] with cursor := ["a"] } 2 (by decide) (by decide) (by decide) (by decide)

/-! ### Claim C7 -/

/-- Claim C7: the process exit code is 0 exactly when the run fully
succeeded: the initial connect/login did not fail, the walk completed
without an escaped exception, and the event trace records no failure
(`DownloadFailed`/`Error`) for any file anywhere in the tree —
equivalently, every encountered file transferred, verified, and (when
requested) was deleted without error. -/
theorem C7_exit_code (srv : Server) (a : Args) (fuel : Nat)
    (l0 : List (String × Nat)) :
    (mainRun srv a fuel l0).1 = 0 ↔
      srv.connectFail = false ∧
      ∃ st' b, processDirectory srv a.delete_remote a.flatten fuel
          (normRemoteDir a.remote_dir) a.local_dir (mainInit srv a l0) = (st', some b) ∧
        cleanEvents st'.events = true := by
  constructor
  · intro h
    unfold mainRun at h
    dsimp only at h
    by_cases hc : srv.connectFail
    · simp [hc] at h
    · simp only [Bool.not_eq_true] at hc
      rw [hc] at h
      simp only [Bool.false_eq_true, if_false] at h
      rcases hw : processDirectory srv a.delete_remote a.flatten fuel
          (normRemoteDir a.remote_dir) a.local_dir (mainInit srv a l0) with ⟨st1, r⟩
      rw [hw] at h
      rcases r with _ | b
      · simp at h
      · rcases b with _ | _
        · simp at h
        · refine ⟨hc, st1, true, rfl, ?_⟩
          obtain ⟨d, hΔ, hb⟩ := processDirectory_trace fuel hw
          rw [mainInit_events, List.nil_append] at hΔ
          rw [hΔ]
          exact hb.symm
  · rintro ⟨hc, st1, b, hw, hclean⟩
    obtain ⟨d, hΔ, hb⟩ := processDirectory_trace fuel hw
    rw [mainInit_events, List.nil_append] at hΔ
    subst hΔ
    have hbt : b = true := by rw [hb, hclean]
    subst hbt
    unfold mainRun
    dsimp only
    rw [hc]
    simp only [Bool.false_eq_true, if_false]
    rw [hw]

/-! ### Claim C8 -/

/-- Claim C8: the Listing Parser (a total function — it never raises)
yields no entry exactly when the line has fewer than 9 whitespace
tokens or the extracted name (tokens 8 onward joined by spaces) is `.`
or `..`. -/
theorem C8_parser_skip (line : String) :
    parseLine line = none ↔
      ((pySplit line).length < 9 ∨
        String.intercalate " " ((pySplit line).drop 8) = "." ∨
        String.intercalate " " ((pySplit line).drop 8) = "..") := by
  unfold parseLine
  dsimp only
  split
  · rename_i h9
    simp [h9]
  · rename_i h9
    split
    · rename_i hdot
      simp [h9, hdot]
    · rename_i hdot
      rw [not_or] at hdot
      simp [h9, hdot.1, hdot.2]

/-! ### Claim C9 -/

/-- Claim C9: every accepted listing line yields an entry whose name is
tokens 8 onward joined with single spaces, classified as a directory
exactly when the raw line's first character is `d`. -/
theorem C9_parser_accept (line : String) (e : RemoteEntry)
    (h : parseLine line = some e) :
    e.name = String.intercalate " " ((pySplit line).drop 8) ∧
    (e.isDirectory = true ↔ line.toList.head? = some 'd') := by
  unfold parseLine at h
  dsimp only at h
  split at h
  · cases h
  · split at h
    · cases h
    · injection h with h
      rw [← h]
      refine ⟨rfl, ?_⟩
      dsimp only
      unfold startsWithChar
      exact beq_iff_eq

theorem C9_witness :
    (RemoteEntry.mk "a" true).name
      = String.intercalate " " ((pySplit "drwxr-xr-x 2 u g 4096 Jan 1 00:00 a").drop 8) ∧
    ((RemoteEntry.mk "a" true).isDirectory = true ↔
      ("drwxr-xr-x 2 u g 4096 Jan 1 00:00 a" : String).toList.head? = some 'd') :=
  C9_parser_accept "drwxr-xr-x 2 u g 4096 Jan 1 00:00 a" (RemoteEntry.mk "a" true) (by decide)

/-! ### Claim C10 -/

/-- Claim C10: the local destination is opened for binary write
(truncated to zero bytes) before the transfer runs, so when the
transfer raises, any pre-existing local content at that path has been
destroyed even though the item is recorded as failed (`Error`). -/
theorem C10_truncate_on_failure (srv : Server) (fn rp lp : String) (dr : Bool)
    (st : St) (m : Nat)
    (hpre : st.localFiles.lookup lp = some m)
    (hfail : srv.retrFail.contains (st.cursor ++ pathComps fn) = true) :
    (downloadFile srv fn rp lp dr st).2 = some false ∧
    ((downloadFile srv fn rp lp dr st).1).localFiles.lookup lp = some 0 ∧
    ((downloadFile srv fn rp lp dr st).1).events
      = st.events ++ [Event.errorEvent rp] := by
  have hfail2 : st.cursor ++ pathComps fn ∈ srv.retrFail := by simp_all
  refine ⟨?_, ?_, ?_⟩ <;> simp [downloadFile, hfail2, lookup_cons_self]

theorem C10_witness :
    (downloadFile srvF "g.txt" "/g.txt" "/L/g.txt" false stF).2 = some false ∧
    ((downloadFile srvF "g.txt" "/g.txt" "/L/g.txt" false stF).1).localFiles.lookup "/L/g.txt"
      = some 0 ∧
    ((downloadFile srvF "g.txt" "/g.txt" "/L/g.txt" false stF).1).events
      = stF.events ++ [Event.errorEvent "/g.txt"] :=
  C10_truncate_on_failure srvF "g.txt" "/g.txt" "/L/g.txt" false stF 7
    (by decide) (by decide)

end FtpSync
